import Mathlib

/-!
Formal model of the sensorium repository.

The Python experiment and example utilities (src/experiments/common.py,
src/examples/cli.py, src/examples/minimal_experiment.py,
src/examples/synthetic_sensors.py) are embedded over exact rational
arithmetic.  The Sync Engine itself ships as an external binding and is not
part of the repository sources, so its grouping step and election check are
modelled from the specification (spec.md sections 3, 4.4, 4.5, 4.6); every
such definition is marked in its doc comment.  The Gaussian kernel
exp(-x) and the square root used by the grouper are not exactly computable
on rationals, so the grouper is parametric in two functions gexp and gsqrt;
theorems assume only their positivity (and no more), and witnesses
instantiate them with concrete total functions.
-/

namespace Sensorium

/-- Python int() applied to an exact rational: truncation toward zero
(floor for nonnegative arguments, ceiling for negative ones). -/
def pyInt (q : ℚ) : Int := if 0 ≤ q then ⌊q⌋ else ⌈q⌉

/-- The factor 1e9 converting seconds to nanoseconds, as used by every
observation key writer. -/
def nsFactor : ℚ := 1000000000

/-- Observation key built by _write_observation in
src/experiments/common.py (line 43). -/
def obsKeyCommon (sensor_id : String) (t_local : ℚ) : String :=
  "obs:" ++ sensor_id ++ ":" ++ toString (pyInt (t_local * nsFactor))

/-- Observation key built by ingest_observation in src/examples/cli.py
(line 21). -/
def obsKeyCli (sensor_id : String) (t_local : ℚ) : String :=
  "obs:" ++ sensor_id ++ ":" ++ toString (pyInt (t_local * nsFactor))

/-- Observation key built by write_observation in
src/examples/minimal_experiment.py (line 29). -/
def obsKeyMinimal (sensor_id : String) (t_local : ℚ) : String :=
  "obs:" ++ sensor_id ++ ":" ++ toString (pyInt (t_local * nsFactor))

/-- Observation key built by run_simulation in
src/examples/synthetic_sensors.py (line 75). -/
def obsKeySynthetic (sensor_id : String) (t_local : ℚ) : String :=
  "obs:" ++ sensor_id ++ ":" ++ toString (pyInt (t_local * nsFactor))

/-- Modelled from the spec: the nanosecond identity component of spec.md
section 3, t_local times 1e9 rounded to the nearest integer. -/
def specNanos (t_local : ℚ) : Int := round (t_local * nsFactor)

/-- A field value of a self-describing text record: either a string field
or a numeric field (JSON scalar written by json.dumps). -/
inductive FieldVal
  | s (v : String)
  | q (v : ℚ)
deriving Repr, DecidableEq

/-- SensorSpec dataclass from src/experiments/common.py (lines 19-25). -/
structure SensorSpec where
  sensor_id : String
  sensor_type : String
  offset : ℚ
  drift : ℚ
  jitter : ℚ
deriving Repr, DecidableEq

/-- SyntheticSensor dataclass from src/examples/synthetic_sensors.py
(lines 14-20). -/
structure SyntheticSensor where
  sensor_id : String
  sensor_type : String
  offset : ℚ
  drift : ℚ
  jitter : ℚ
deriving Repr, DecidableEq

/-- random.gauss(mu, sigma) with z the underlying standard normal draw:
CPython computes mu + z * sigma, so a zero sigma yields exactly mu. -/
def pyGauss (mu sigma z : ℚ) : ℚ := mu + z * sigma

/-- Local timestamp generated by seed_observations in
src/experiments/common.py (lines 64-66): inverse drift/offset mapping of
the true time plus Gaussian jitter. -/
def seedTLocal (s : SensorSpec) (true_time z : ℚ) : ℚ :=
  (true_time - s.offset) / s.drift + pyGauss 0 s.jitter z

/-- Local timestamp generated by simulate_observation in
src/examples/synthetic_sensors.py (lines 35-37). -/
def simTLocal (sensor : SyntheticSensor) (true_global_time z : ℚ) : ℚ :=
  (true_global_time - sensor.offset) / sensor.drift + pyGauss 0 sensor.jitter z

/-- Observation record built by seed_observations in
src/experiments/common.py (lines 67-73). -/
def obsRecordSeed (s : SensorSpec) (t_local : ℚ) : List (String × FieldVal) :=
  [("sensor_id", FieldVal.s s.sensor_id),
   ("sensor_type", FieldVal.s s.sensor_type),
   ("t_local", FieldVal.q t_local),
   ("sigma", FieldVal.q s.jitter),
   ("payload_ref", FieldVal.s
      ("mem://" ++ s.sensor_id ++ "/" ++ toString (pyInt (t_local * nsFactor))))]

/-- Observation record built by ingest_observation in src/examples/cli.py
(lines 14-20). -/
def obsRecordIngest (sensor_id sensor_type : String) (t_local sigma : ℚ)
    (payload_ref : String) : List (String × FieldVal) :=
  [("sensor_id", FieldVal.s sensor_id),
   ("sensor_type", FieldVal.s sensor_type),
   ("t_local", FieldVal.q t_local),
   ("sigma", FieldVal.q sigma),
   ("payload_ref", FieldVal.s payload_ref)]

/-- Observation record built by write_observation in
src/examples/minimal_experiment.py (lines 30-38). -/
def obsRecordMinimal (sensor_id : String) (t_local sigma : ℚ)
    (payload_ref : String) : List (String × FieldVal) :=
  [("sensor_id", FieldVal.s sensor_id),
   ("sensor_type", FieldVal.s "test"),
   ("t_local", FieldVal.q t_local),
   ("sigma", FieldVal.q sigma),
   ("payload_ref", FieldVal.s payload_ref)]

/-- Observation record built by simulate_observation in
src/examples/synthetic_sensors.py (lines 39-45). -/
def obsRecordSim (sensor : SyntheticSensor) (t_local : ℚ) :
    List (String × FieldVal) :=
  [("sensor_id", FieldVal.s sensor.sensor_id),
   ("sensor_type", FieldVal.s sensor.sensor_type),
   ("t_local", FieldVal.q t_local),
   ("sigma", FieldVal.q sensor.jitter),
   ("payload_ref", FieldVal.s
      ("mem://" ++ sensor.sensor_id ++ "/" ++ toString (pyInt (t_local * nsFactor))))]

/-- Sync-state record built by _write_state in src/experiments/common.py
(line 49). -/
def stateRecord (offset_mean offset_var drift : ℚ) : List (String × FieldVal) :=
  [("offset_mean", FieldVal.q offset_mean),
   ("offset_var", FieldVal.q offset_var),
   ("drift", FieldVal.q drift)]

/-- The _write_state helper of src/experiments/common.py (lines 47-50)
with its Python default arguments: key and record written. -/
def writeState (sensor_id : String) (offset_mean : ℚ := 0)
    (offset_var : ℚ := 1/10) (drift : ℚ := 1) :
    String × List (String × FieldVal) :=
  ("sync:state:" ++ sensor_id, stateRecord offset_mean offset_var drift)

/-- The state write performed per sensor by seed_observations in
src/experiments/common.py (line 75). -/
def seedStateCall (sensor_id : String) : String × List (String × FieldVal) :=
  writeState sensor_id 0 (1/10) 1

/-- Sync-state record seeded by run_simulation in
src/examples/synthetic_sensors.py (lines 80-84). -/
def simStateRecord : List (String × FieldVal) :=
  [("offset_mean", FieldVal.q 0),
   ("offset_var", FieldVal.q (1/10)),
   ("drift", FieldVal.q 1)]

/-- Observation fields as stored (spec.md section 3). -/
structure Obs where
  sensor_id : String
  sensor_type : String
  t_local : ℚ
  sigma : ℚ
  payload_ref : String
deriving Repr, DecidableEq

/-- Per-sensor time-sync state (spec.md section 3). -/
structure SyncState where
  offset_mean : ℚ
  offset_var : ℚ
  drift : ℚ
deriving Repr, DecidableEq

/-- Modelled from the spec: default sync state on first contact (spec.md
section 3). -/
def defaultSyncState : SyncState := ⟨0, 1/10, 1⟩

/-- A group member: sensor identifier plus membership probability. -/
structure Member where
  sensor_id : String
  probability : ℚ
deriving Repr, DecidableEq

/-- A grouping result: estimated global time plus ordered members. -/
structure Group where
  t_global : ℚ
  members : List Member
deriving Repr, DecidableEq

/-- Sum of the membership probabilities of a member list. -/
def sumProbs (ms : List Member) : ℚ := (ms.map (fun m => m.probability)).sum

/-- First-match loop of max_member_probability in
src/experiments/common.py (lines 94-96). -/
def loopMaxMember (sid : String) : List Member → ℚ
  | [] => 0
  | m :: ms => if m.sensor_id = sid then m.probability else loopMaxMember sid ms

/-- max_member_probability from src/experiments/common.py (lines 90-97):
probability of the named sensor in the first group, else 0. -/
def maxMemberProbability (groups : List Group) (sensor_id : String) : ℚ :=
  match groups with
  | [] => 0
  | g :: _ => loopMaxMember sensor_id g.members

/-- First-match loop of member_probability in src/experiments/common.py
(lines 103-105). -/
def loopMemberProb (sid : String) : List Member → ℚ
  | [] => 0
  | m :: ms => if m.sensor_id = sid then m.probability else loopMemberProb sid ms

/-- member_probability from src/experiments/common.py (lines 100-106). -/
def memberProbability (groups : List Group) (sensor_id : String) : ℚ :=
  match groups with
  | [] => 0
  | g :: _ => loopMemberProb sensor_id g.members

/-- Modelled from the spec: zero sigma is treated as 1e-9 (spec.md
section 4.4, edge policies). -/
def sigmaEff (sigma : ℚ) : ℚ := if sigma = 0 then 1 / 1000000000 else sigma

/-- Modelled from the spec: an observation whose sensor has no stored sync
state inherits the defaults (spec.md section 4.2). -/
def lookupState (states : List (String × SyncState)) (sid : String) : SyncState :=
  match states.lookup sid with
  | some st => st
  | none => defaultSyncState

/-- An observation projected into the global time frame. -/
structure Projected where
  sensor_id : String
  mu : ℚ
  var : ℚ
deriving Repr, DecidableEq

/-- Modelled from the spec: global-time projection mu = t_local * drift +
offset_mean with projected variance sigma^2 + offset_var (spec.md section
4.4). -/
def project (states : List (String × SyncState)) (o : Obs) : Projected :=
  let st := lookupState states o.sensor_id
  { sensor_id := o.sensor_id
  , mu := o.t_local * st.drift + st.offset_mean
  , var := sigmaEff o.sigma ^ 2 + st.offset_var }

/-- Insertion step for sorting projected observations by mu. -/
def insertByMu (p : Projected) : List Projected → List Projected
  | [] => [p]
  | q :: qs => if p.mu ≤ q.mu then p :: q :: qs else q :: insertByMu p qs

/-- Sort projected observations ascending by mu. -/
def sortByMu : List Projected → List Projected
  | [] => []
  | p :: ps => insertByMu p (sortByMu ps)

/-- Modelled from the spec: integer bucket floor(mu / bucket_size)
(spec.md section 4.4, step 1). -/
def bucketOf (bs : ℚ) (p : Projected) : Int := ⌊p.mu / bs⌋

/-- Modelled from the spec: maximal runs of mu-sorted observations whose
buckets are contiguous, consecutive buckets differing by at most one
(spec.md section 4.4, step 1). -/
def splitRuns (bs : ℚ) : List Projected → List (List Projected)
  | [] => []
  | o :: os =>
    match splitRuns bs os with
    | [] => [[o]]
    | [] :: cs => [o] :: cs
    | (p :: c) :: cs =>
      if bucketOf bs p - bucketOf bs o ≤ 1 then (o :: p :: c) :: cs
      else [o] :: (p :: c) :: cs

/-- Modelled from the spec: unnormalised Gaussian weight
exp(-(mu - t)^2 / (2 var)) / sqrt(var), with the exponential and the
square root supplied as parameters gexp and gsqrt (spec.md section 4.4,
step 3). -/
def weight (gexp gsqrt : ℚ → ℚ) (t : ℚ) (p : Projected) : ℚ :=
  gexp (-((p.mu - t) ^ 2 / (2 * p.var))) / gsqrt p.var

/-- Modelled from the spec: normalised membership probabilities of a
candidate cluster at center t; a zero normaliser falls back to uniform
probabilities (spec.md section 4.4, step 3). -/
def softAssign (gexp gsqrt : ℚ → ℚ) (cl : List Projected) (t : ℚ) : List ℚ :=
  let ws := cl.map (weight gexp gsqrt t)
  let total := ws.sum
  if total = 0 then cl.map (fun _ => 1 / (cl.length : ℚ))
  else ws.map (fun w => w / total)

/-- Modelled from the spec: inverse-variance-weighted mean used as the
initial cluster center (spec.md section 4.4, step 2). -/
def initCenter (cl : List Projected) : ℚ :=
  (cl.map (fun p => p.mu / p.var)).sum / (cl.map (fun p => 1 / p.var)).sum

/-- Modelled from the spec: probability-weighted inverse-variance center
refinement (spec.md section 4.4, step 4). -/
def refineCenter (cl : List Projected) (ps : List ℚ) : ℚ :=
  ((cl.zip ps).map (fun x => x.2 * x.1.mu / x.1.var)).sum /
    ((cl.zip ps).map (fun x => x.2 / x.1.var)).sum

/-- Modelled from the spec: iterate soft assignment and center refinement
up to the fuel bound or until the center moves by less than 1e-9 seconds
(spec.md section 4.4, step 5; max_iter = 8). -/
def emIterate (gexp gsqrt : ℚ → ℚ) (cl : List Projected) : Nat → ℚ → ℚ
  | 0, t => t
  | n + 1, t =>
    let ps := softAssign gexp gsqrt cl t
    let tNew := refineCenter cl ps
    if |tNew - t| < 1 / 1000000000 then tNew else emIterate gexp gsqrt cl n tNew

/-- Converged center of a candidate cluster: 8 refinement passes starting
from the inverse-variance-weighted mean. -/
def emResult (gexp gsqrt : ℚ → ℚ) (cl : List Projected) : ℚ :=
  emIterate gexp gsqrt cl 8 (initCenter cl)

/-- Insertion step for sorting rationals ascending. -/
def insertQ (x : ℚ) : List ℚ → List ℚ
  | [] => [x]
  | y :: ys => if x ≤ y then x :: y :: ys else y :: insertQ x ys

/-- Sort rationals ascending. -/
def sortQ : List ℚ → List ℚ
  | [] => []
  | x :: xs => insertQ x (sortQ xs)

/-- Lower median of a list of rationals: the element at index
(length - 1) / 2 of the sorted list. -/
def medianLow (l : List ℚ) : ℚ := (sortQ l).getD ((l.length - 1) / 2) 0

/-- Modelled from the spec: probability-weighted sum of squared deviations
from the center.  The splitting test of spec.md section 4.4 step 6
compares its square root against 3 times the median sigma; both sides are
compared squared here, which is equivalent since square root is monotone
and commutes with the median. -/
def ssd (cl : List Projected) (ps : List ℚ) (t : ℚ) : ℚ :=
  ((cl.zip ps).map (fun x => x.2 * (x.1.mu - t) ^ 2)).sum

/-- The projected observation deviating farther from the center t. -/
def farther (t : ℚ) (a b : Projected) : Projected :=
  if |a.mu - t| < |b.mu - t| then b else a

/-- The projected observation of the cluster farthest from the center t. -/
def farthest (t : ℚ) (c : Projected) (cs : List Projected) : Projected :=
  cs.foldl (farther t) c

/-- Modelled from the spec: run steps 2-6 of spec.md section 4.4 on one
candidate cluster, with recursion depth limited to the fuel argument;
at depth zero the unsplit cluster is returned.  Splitting partitions the
cluster by whether a member projects nearer to the center or to the
farthest observation. -/
def runCluster (gexp gsqrt : ℚ → ℚ) : Nat → List Projected → List (ℚ × List Projected)
  | 0, [] => []
  | 0, c :: cs => [(emResult gexp gsqrt (c :: cs), c :: cs)]
  | _ + 1, [] => []
  | d + 1, c :: cs =>
    let t := emResult gexp gsqrt (c :: cs)
    let ps := softAssign gexp gsqrt (c :: cs) t
    if 9 * medianLow ((c :: cs).map (fun p => p.var)) < ssd (c :: cs) ps t then
      let f := farthest t c cs
      let nearHalf := (c :: cs).filter (fun p => decide (|p.mu - t| ≤ |p.mu - f.mu|))
      let farHalf := (c :: cs).filter (fun p => decide (|p.mu - f.mu| < |p.mu - t|))
      runCluster gexp gsqrt d nearHalf ++ runCluster gexp gsqrt d farHalf
    else [(t, c :: cs)]

/-- Members of a final cluster: sensor identifiers paired with their
converged membership probabilities. -/
def mkMembers (gexp gsqrt : ℚ → ℚ) (cl : List Projected) (t : ℚ) : List Member :=
  (cl.zip (softAssign gexp gsqrt cl t)).map (fun x => ⟨x.1.sensor_id, x.2⟩)

/-- Member ordering of spec.md section 4.4 step 7: descending probability,
ties broken by lexicographic sensor_id. -/
def memberBefore (a b : Member) : Bool :=
  decide (b.probability < a.probability) ||
    (decide (a.probability = b.probability) && decide (a.sensor_id ≤ b.sensor_id))

/-- Insertion step for sorting members. -/
def insertMember (m : Member) : List Member → List Member
  | [] => [m]
  | x :: xs => if memberBefore m x then m :: x :: xs else x :: insertMember m xs

/-- Sort members by descending probability, ties by sensor_id. -/
def sortMembers : List Member → List Member
  | [] => []
  | m :: ms => insertMember m (sortMembers ms)

/-- Emit one group from a converged cluster. -/
def mkGroup (gexp gsqrt : ℚ → ℚ) (tc : ℚ × List Projected) : Group :=
  ⟨tc.1, sortMembers (mkMembers gexp gsqrt tc.2 tc.1)⟩

/-- Group ordering of spec.md section 4.4 step 7: ascending t_global. -/
def insertGroup (g : Group) : List Group → List Group
  | [] => [g]
  | x :: xs => if g.t_global ≤ x.t_global then g :: x :: xs else x :: insertGroup g xs

/-- Sort groups ascending by t_global. -/
def sortGroups : List Group → List Group
  | [] => []
  | g :: gs => insertGroup g (sortGroups gs)

/-- Modelled from the spec: the probabilistic grouper of spec.md section
4.4 over an immutable snapshot of the pool. -/
def groupPool (gexp gsqrt : ℚ → ℚ) (bs : ℚ) (pool : List Obs)
    (states : List (String × SyncState)) : List Group :=
  let projs := pool.map (project states)
  let clusters := splitRuns bs (sortByMu projs)
  let results := (clusters.map (runCluster gexp gsqrt 3)).flatten
  sortGroups (results.map (mkGroup gexp gsqrt))

/-- Modelled from the spec: one step invocation (spec.md section 4.6);
a node that is not leader returns the empty list. -/
def step (gexp gsqrt : ℚ → ℚ) (isLeader : Bool) (bs : ℚ) (pool : List Obs)
    (states : List (String × SyncState)) : List Group :=
  if isLeader then groupPool gexp gsqrt bs pool states else []

/-- Modelled from the spec: one atomic election check against the master
lease key (spec.md section 4.5): an absent key is acquired, the holder
renews, any other node fails, returning success flag and new key state. -/
def electAttempt (master : Option String) (n : String) : Bool × Option String :=
  match master with
  | none => (true, some n)
  | some m => if m = n then (true, some m) else (false, some m)

/-- Nodes whose election check succeeds along a linearized trace of
attempts starting from a given lease state, with no expiry in between. -/
def successfulNodes (master : Option String) : List String → List String
  | [] => []
  | n :: ns =>
    let r := electAttempt master n
    (if r.1 then [n] else []) ++ successfulNodes r.2 ns

/-- Nodes whose step invocation returns a non-empty result along a
linearized trace of attempts over a fixed pool snapshot. -/
def nonEmptyNodes (gexp gsqrt : ℚ → ℚ) (bs : ℚ) (pool : List Obs)
    (states : List (String × SyncState)) (master : Option String) :
    List String → List String
  | [] => []
  | n :: ns =>
    let r := electAttempt master n
    let gs := step gexp gsqrt r.1 bs pool states
    (if gs.isEmpty then [] else [n]) ++
      nonEmptyNodes gexp gsqrt bs pool states r.2 ns

theorem loops_agree (sid : String) : ∀ ms : List Member,
    loopMaxMember sid ms = loopMemberProb sid ms
  | [] => rfl
  | m :: ms => by
    simp only [loopMaxMember, loopMemberProb]
    rw [loops_agree sid ms]

theorem loopMemberProb_eq_zero (sid : String) : ∀ ms : List Member,
    (∀ m ∈ ms, m.sensor_id ≠ sid) → loopMemberProb sid ms = 0
  | [], _ => rfl
  | m :: ms, h => by
    simp only [loopMemberProb]
    rw [if_neg (h m (List.mem_cons_self m ms)), loopMemberProb_eq_zero sid ms]
    intro x hx
    exact h x (List.mem_cons_of_mem m hx)

/-- Claim C1 (counterexample): at t_local equal to 2.7 nanoseconds the key
written by _write_observation differs from the key the claim prescribes,
because int() truncates 2.7 to 2 while rounding to the nearest integer
gives 3. -/
theorem obs_key_not_round :
    obsKeyCommon "s" (27 / 10000000000) ≠
      "obs:" ++ "s" ++ ":" ++ toString (specNanos (27 / 10000000000)) := by
  have h1 : pyInt (27 / 10000000000 * nsFactor) = 2 := by
    unfold nsFactor pyInt
    rw [if_pos (by norm_num)]
    norm_num
  have h2 : specNanos (27 / 10000000000) = 3 := by
    unfold specNanos nsFactor
    norm_num [round_eq]
  unfold obsKeyCommon
  rw [h1, h2]
  decide

/-- Claim C1 (amended): every writer of observations derives the
nanosecond component of the key from t_local by truncation toward zero of
t_local * 1e9 (Python int()), not by rounding to the nearest integer; all
four writers produce identical keys, and for nonnegative t_local the
component is the floor of t_local * 1e9. -/
theorem obs_key_truncation (sid : String) (t : ℚ) :
    obsKeyCommon sid t = "obs:" ++ sid ++ ":" ++ toString (pyInt (t * nsFactor)) ∧
    obsKeyCli sid t = obsKeyCommon sid t ∧
    obsKeyMinimal sid t = obsKeyCommon sid t ∧
    obsKeySynthetic sid t = obsKeyCommon sid t ∧
    (0 ≤ t → pyInt (t * nsFactor) = ⌊t * nsFactor⌋) := by
  refine ⟨rfl, rfl, rfl, rfl, fun h => ?_⟩
  unfold pyInt
  rw [if_pos (mul_nonneg h (by norm_num [nsFactor]))]

theorem obs_key_truncation_witness :
    obsKeyCommon "s" 10 = "obs:" ++ "s" ++ ":" ++ toString (pyInt (10 * nsFactor)) ∧
    obsKeyCli "s" 10 = obsKeyCommon "s" 10 ∧
    obsKeyMinimal "s" 10 = obsKeyCommon "s" 10 ∧
    obsKeySynthetic "s" 10 = obsKeyCommon "s" 10 ∧
    (0 ≤ (10 : ℚ) → pyInt (10 * nsFactor) = ⌊(10 : ℚ) * nsFactor⌋) :=
  obs_key_truncation "s" 10

/-- Claim C6: the default per-sensor sync state used on first contact and
written by every state-seeding helper is exactly offset_mean = 0,
offset_var = 0.1, drift = 1. -/
theorem default_state_values (sid : String) :
    defaultSyncState = ⟨0, 1/10, 1⟩ ∧
    lookupState [] sid = defaultSyncState ∧
    (writeState sid).2 = stateRecord 0 (1/10) 1 ∧
    seedStateCall sid = writeState sid 0 (1/10) 1 ∧
    simStateRecord = stateRecord 0 (1/10) 1 :=
  ⟨rfl, rfl, rfl, rfl, rfl⟩

/-- Claim C7: every observation record written to the store has exactly
the fields sensor_id, sensor_type, t_local, sigma, payload_ref, and every
sync-state record exactly offset_mean, offset_var, drift. -/
theorem record_fields_exact (s : SensorSpec) (sensor : SyntheticSensor)
    (sid stype pref : String) (t sigma om ov dr : ℚ) :
    (obsRecordSeed s t).map Prod.fst =
      ["sensor_id", "sensor_type", "t_local", "sigma", "payload_ref"] ∧
    (obsRecordIngest sid stype t sigma pref).map Prod.fst =
      ["sensor_id", "sensor_type", "t_local", "sigma", "payload_ref"] ∧
    (obsRecordMinimal sid t sigma pref).map Prod.fst =
      ["sensor_id", "sensor_type", "t_local", "sigma", "payload_ref"] ∧
    (obsRecordSim sensor t).map Prod.fst =
      ["sensor_id", "sensor_type", "t_local", "sigma", "payload_ref"] ∧
    (stateRecord om ov dr).map Prod.fst = ["offset_mean", "offset_var", "drift"] ∧
    simStateRecord.map Prod.fst = ["offset_mean", "offset_var", "drift"] :=
  ⟨rfl, rfl, rfl, rfl, rfl, rfl⟩

/-- Claim C9: max_member_probability and member_probability are
extensionally equal, and both return 0 on an empty groups list and when
the sensor is not a member of the first group. -/
theorem member_probability_agree (groups : List Group) (sid : String) :
    maxMemberProbability groups sid = memberProbability groups sid ∧
    maxMemberProbability [] sid = 0 ∧
    memberProbability [] sid = 0 ∧
    (∀ g gs, groups = g :: gs → (∀ m ∈ g.members, m.sensor_id ≠ sid) →
      maxMemberProbability groups sid = 0 ∧ memberProbability groups sid = 0) := by
  refine ⟨?_, rfl, rfl, ?_⟩
  · cases groups with
    | nil => rfl
    | cons g gs => exact loops_agree sid g.members
  · intro g gs hg habs
    subst hg
    have h0 : loopMemberProb sid g.members = 0 := loopMemberProb_eq_zero sid g.members habs
    exact ⟨by rw [show maxMemberProbability (g :: gs) sid = loopMaxMember sid g.members from rfl,
      loops_agree sid g.members, h0], h0⟩

theorem member_probability_agree_witness :
    maxMemberProbability [(⟨5, [⟨"a", 1⟩]⟩ : Group)] "b" =
      memberProbability [(⟨5, [⟨"a", 1⟩]⟩ : Group)] "b" ∧
    maxMemberProbability [] "b" = 0 ∧
    memberProbability [] "b" = 0 ∧
    (∀ g gs, [(⟨5, [⟨"a", 1⟩]⟩ : Group)] = g :: gs →
      (∀ m ∈ g.members, m.sensor_id ≠ "b") →
      maxMemberProbability [(⟨5, [⟨"a", 1⟩]⟩ : Group)] "b" = 0 ∧
        memberProbability [(⟨5, [⟨"a", 1⟩]⟩ : Group)] "b" = 0) :=
  member_probability_agree [(⟨5, [⟨"a", 1⟩]⟩ : Group)] "b"

/-- Claim C10: with nonzero drift and zero jitter, the local timestamps
produced by seed_observations and simulate_observation invert the global
time projection: t_local * drift + offset recovers the true time exactly,
and the engine projection of the generated observation under the matching
sync state equals the true time. -/
theorem generator_round_trip (s : SensorSpec) (sensor : SyntheticSensor)
    (T z v : ℚ) (hd : s.drift ≠ 0) (hj : s.jitter = 0)
    (hd2 : sensor.drift ≠ 0) (hj2 : sensor.jitter = 0) :
    seedTLocal s T z * s.drift + s.offset = T ∧
    simTLocal sensor T z * sensor.drift + sensor.offset = T ∧
    (project [(s.sensor_id, ⟨s.offset, v, s.drift⟩)]
        ⟨s.sensor_id, s.sensor_type, seedTLocal s T z, s.jitter, ""⟩).mu = T := by
  have h1 : seedTLocal s T z = (T - s.offset) / s.drift := by
    simp [seedTLocal, pyGauss, hj]
  have h2 : simTLocal sensor T z = (T - sensor.offset) / sensor.drift := by
    simp [simTLocal, pyGauss, hj2]
  have hmain : seedTLocal s T z * s.drift + s.offset = T := by
    rw [h1, div_mul_cancel₀ _ hd]
    ring
  refine ⟨hmain, ?_, ?_⟩
  · rw [h2, div_mul_cancel₀ _ hd2]
    ring
  · have hlook : lookupState [(s.sensor_id, ⟨s.offset, v, s.drift⟩)] s.sensor_id =
        ⟨s.offset, v, s.drift⟩ := by
      simp [lookupState, List.lookup]
    simp only [project, hlook]
    exact hmain

theorem generator_round_trip_witness :
    seedTLocal ⟨"a", "t", 1/2, 2, 0⟩ 10 7 * (2 : ℚ) + 1/2 = 10 ∧
    simTLocal ⟨"b", "t", 1/3, 3, 0⟩ 10 7 * (3 : ℚ) + 1/3 = 10 ∧
    (project [("a", ⟨1/2, 4, 2⟩)] ⟨"a", "t", seedTLocal ⟨"a", "t", 1/2, 2, 0⟩ 10 7, 0, ""⟩).mu = 10 :=
  generator_round_trip ⟨"a", "t", 1/2, 2, 0⟩ ⟨"b", "t", 1/3, 3, 0⟩ 10 7 4
    (by norm_num) rfl (by norm_num) rfl

theorem sum_map_div (l : List ℚ) (c : ℚ) :
    (l.map (fun w => w / c)).sum = l.sum / c := by
  induction l with
  | nil => simp
  | cons x xs ih => simp [ih, add_div]

theorem softAssign_len (gexp gsqrt : ℚ → ℚ) (cl : List Projected) (t : ℚ) :
    (softAssign gexp gsqrt cl t).length = cl.length := by
  simp only [softAssign]
  split <;> simp

theorem weight_pos (gexp gsqrt : ℚ → ℚ) (hE : ∀ x, 0 < gexp x)
    (hS : ∀ x, 0 < gsqrt x) (t : ℚ) (p : Projected) :
    0 < weight gexp gsqrt t p :=
  div_pos (hE _) (hS _)

theorem weights_total_pos (gexp gsqrt : ℚ → ℚ) (hE : ∀ x, 0 < gexp x)
    (hS : ∀ x, 0 < gsqrt x) (cl : List Projected) (t : ℚ) (hcl : cl ≠ []) :
    0 < (cl.map (weight gexp gsqrt t)).sum := by
  apply List.sum_pos
  · intro x hx
    obtain ⟨p, _, rfl⟩ := List.mem_map.mp hx
    exact weight_pos gexp gsqrt hE hS t p
  · intro h
    exact hcl (List.map_eq_nil_iff.mp h)

theorem softAssign_mem_bounds (gexp gsqrt : ℚ → ℚ) (hE : ∀ x, 0 < gexp x)
    (hS : ∀ x, 0 < gsqrt x) (cl : List Projected) (t q : ℚ)
    (hq : q ∈ softAssign gexp gsqrt cl t) : 0 < q ∧ q ≤ 1 := by
  cases cl with
  | nil => simp [softAssign] at hq
  | cons c cs =>
    have htot := weights_total_pos gexp gsqrt hE hS (c :: cs) t (by simp)
    unfold softAssign at hq
    rw [if_neg (ne_of_gt htot)] at hq
    obtain ⟨w, hw, rfl⟩ := List.mem_map.mp hq
    have hwpos : 0 < w := by
      obtain ⟨p, _, rfl⟩ := List.mem_map.mp hw
      exact weight_pos gexp gsqrt hE hS t p
    refine ⟨div_pos hwpos htot, ?_⟩
    rw [div_le_one htot]
    refine List.single_le_sum (fun x hx => ?_) w hw
    obtain ⟨p, _, rfl⟩ := List.mem_map.mp hx
    exact le_of_lt (weight_pos gexp gsqrt hE hS t p)

theorem softAssign_sum_eq_one (gexp gsqrt : ℚ → ℚ) (hE : ∀ x, 0 < gexp x)
    (hS : ∀ x, 0 < gsqrt x) (cl : List Projected) (t : ℚ) (hcl : cl ≠ []) :
    (softAssign gexp gsqrt cl t).sum = 1 := by
  have htot := weights_total_pos gexp gsqrt hE hS cl t hcl
  unfold softAssign
  rw [if_neg (ne_of_gt htot), sum_map_div]
  exact div_self (ne_of_gt htot)

theorem mkMembers_probs (gexp gsqrt : ℚ → ℚ) (cl : List Projected) (t : ℚ) :
    (mkMembers gexp gsqrt cl t).map (fun m => m.probability) =
      softAssign gexp gsqrt cl t := by
  unfold mkMembers
  rw [List.map_map]
  have h : ((fun m : Member => m.probability) ∘
      fun x : Projected × ℚ => (⟨x.1.sensor_id, x.2⟩ : Member)) = Prod.snd := rfl
  rw [h]
  exact List.map_snd_zip cl (softAssign gexp gsqrt cl t)
    (le_of_eq (softAssign_len gexp gsqrt cl t))

theorem mem_insertMember (m x : Member) : ∀ l : List Member,
    (x ∈ insertMember m l ↔ x = m ∨ x ∈ l)
  | [] => by simp [insertMember]
  | y :: ys => by
    simp only [insertMember]
    split
    · simp [List.mem_cons]
    · rw [List.mem_cons, mem_insertMember m x ys, List.mem_cons]
      tauto

theorem mem_sortMembers (x : Member) : ∀ l : List Member,
    (x ∈ sortMembers l ↔ x ∈ l)
  | [] => Iff.rfl
  | m :: ms => by
    simp only [sortMembers]
    rw [mem_insertMember m x (sortMembers ms), mem_sortMembers x ms, List.mem_cons]

theorem sumProbs_insertMember (m : Member) : ∀ l : List Member,
    sumProbs (insertMember m l) = m.probability + sumProbs l
  | [] => by simp [insertMember, sumProbs]
  | x :: xs => by
    simp only [insertMember]
    split
    · simp [sumProbs]
    · simp only [sumProbs, List.map_cons, List.sum_cons]
      have h := sumProbs_insertMember m xs
      simp only [sumProbs] at h
      rw [h]
      ring

theorem sumProbs_sortMembers : ∀ l : List Member,
    sumProbs (sortMembers l) = sumProbs l
  | [] => rfl
  | m :: ms => by
    simp only [sortMembers]
    rw [sumProbs_insertMember m (sortMembers ms), sumProbs_sortMembers ms]
    simp [sumProbs]

theorem mem_insertGroup (g x : Group) : ∀ l : List Group,
    (x ∈ insertGroup g l ↔ x = g ∨ x ∈ l)
  | [] => by simp [insertGroup]
  | y :: ys => by
    simp only [insertGroup]
    split
    · simp [List.mem_cons]
    · rw [List.mem_cons, mem_insertGroup g x ys, List.mem_cons]
      tauto

theorem mem_sortGroups (x : Group) : ∀ l : List Group,
    (x ∈ sortGroups l ↔ x ∈ l)
  | [] => Iff.rfl
  | g :: gs => by
    simp only [sortGroups]
    rw [mem_insertGroup g x (sortGroups gs), mem_sortGroups x gs, List.mem_cons]

theorem runCluster_snd_ne_nil (gexp gsqrt : ℚ → ℚ) :
    ∀ (d : Nat) (cl : List Projected), ∀ pr ∈ runCluster gexp gsqrt d cl, pr.2 ≠ []
  | 0, [] => by simp [runCluster]
  | 0, c :: cs => by
    intro pr hpr
    simp only [runCluster, List.mem_singleton] at hpr
    subst hpr
    simp
  | _ + 1, [] => by simp [runCluster]
  | d + 1, c :: cs => by
    intro pr hpr
    simp only [runCluster] at hpr
    split at hpr
    · rcases List.mem_append.mp hpr with h | h
      · exact runCluster_snd_ne_nil gexp gsqrt d _ pr h
      · exact runCluster_snd_ne_nil gexp gsqrt d _ pr h
    · rw [List.mem_singleton] at hpr
      subst hpr
      simp

/-- Claim C3: if the store holds zero live observations, step returns the
empty list of groups. -/
theorem step_empty_pool (gexp gsqrt : ℚ → ℚ) (isLeader : Bool) (bs : ℚ)
    (states : List (String × SyncState)) :
    step gexp gsqrt isLeader bs [] states = [] := by
  cases isLeader <;> rfl

/-- Claim C2: every member of every group returned by step has a
probability in (0, 1], and the probabilities within a group sum to 1
(hence within the 1e-6 tolerance). -/
theorem step_probabilities_valid (gexp gsqrt : ℚ → ℚ)
    (hE : ∀ x, 0 < gexp x) (hS : ∀ x, 0 < gsqrt x)
    (isLeader : Bool) (bs : ℚ) (pool : List Obs)
    (states : List (String × SyncState)) (g : Group)
    (hg : g ∈ step gexp gsqrt isLeader bs pool states) :
    (∀ m ∈ g.members, 0 < m.probability ∧ m.probability ≤ 1) ∧
      |sumProbs g.members - 1| ≤ 1 / 1000000 := by
  cases isLeader with
  | false => simp [step] at hg
  | true =>
    simp only [step, if_true] at hg
    unfold groupPool at hg
    rw [mem_sortGroups] at hg
    obtain ⟨pr, hpr, rfl⟩ := List.mem_map.mp hg
    obtain ⟨l, hl, hprl⟩ := List.mem_flatten.mp hpr
    obtain ⟨cl0, _hcl0, rfl⟩ := List.mem_map.mp hl
    have hne : pr.2 ≠ [] := runCluster_snd_ne_nil gexp gsqrt 3 cl0 pr hprl
    have hmem : (mkGroup gexp gsqrt pr).members =
        sortMembers (mkMembers gexp gsqrt pr.2 pr.1) := rfl
    constructor
    · intro m hm
      rw [hmem, mem_sortMembers m (mkMembers gexp gsqrt pr.2 pr.1)] at hm
      have hp : m.probability ∈ softAssign gexp gsqrt pr.2 pr.1 := by
        rw [← mkMembers_probs gexp gsqrt pr.2 pr.1]
        exact List.mem_map_of_mem _ hm
      exact softAssign_mem_bounds gexp gsqrt hE hS pr.2 pr.1 m.probability hp
    · have hsum : sumProbs (mkGroup gexp gsqrt pr).members = 1 := by
        rw [hmem, sumProbs_sortMembers]
        show ((mkMembers gexp gsqrt pr.2 pr.1).map (fun m => m.probability)).sum = 1
        rw [mkMembers_probs]
        exact softAssign_sum_eq_one gexp gsqrt hE hS pr.2 pr.1 hne
      rw [hsum]
      norm_num

theorem softAssign_singleton (gexp gsqrt : ℚ → ℚ) (hE : ∀ x, 0 < gexp x)
    (hS : ∀ x, 0 < gsqrt x) (p : Projected) (t : ℚ) :
    softAssign gexp gsqrt [p] t = [1] := by
  have hw : 0 < weight gexp gsqrt t p := weight_pos gexp gsqrt hE hS t p
  simp only [softAssign, List.map_cons, List.map_nil, List.sum_cons, List.sum_nil,
    add_zero, if_neg (ne_of_gt hw), div_self (ne_of_gt hw)]

theorem initCenter_singleton (p : Projected) (hv : p.var ≠ 0) :
    initCenter [p] = p.mu := by
  simp only [initCenter, List.map_cons, List.map_nil, List.sum_cons, List.sum_nil,
    add_zero]
  field_simp

theorem refineCenter_singleton (p : Projected) (hv : p.var ≠ 0) :
    refineCenter [p] [1] = p.mu := by
  simp only [refineCenter, List.zip_cons_cons, List.zip_nil_right, List.map_cons,
    List.map_nil, List.sum_cons, List.sum_nil, add_zero, one_mul]
  field_simp

theorem emIterate_fixpoint (gexp gsqrt : ℚ → ℚ) (cl : List Projected) (n : Nat)
    (t : ℚ) (h : refineCenter cl (softAssign gexp gsqrt cl t) = t) :
    emIterate gexp gsqrt cl (n + 1) t = t := by
  simp only [emIterate, h, sub_self, abs_zero]
  rw [if_pos (by norm_num)]

theorem emResult_singleton (gexp gsqrt : ℚ → ℚ) (hE : ∀ x, 0 < gexp x)
    (hS : ∀ x, 0 < gsqrt x) (p : Projected) (hv : p.var ≠ 0) :
    emResult gexp gsqrt [p] = p.mu := by
  unfold emResult
  rw [initCenter_singleton p hv]
  exact emIterate_fixpoint gexp gsqrt [p] 7 p.mu
    (by rw [softAssign_singleton gexp gsqrt hE hS p p.mu]
        exact refineCenter_singleton p hv)

theorem medianLow_single (x : ℚ) : medianLow [x] = x := by
  simp [medianLow, sortQ, insertQ]

theorem ssd_center_singleton (ps : List ℚ) (p : Projected) (hps : ps = [1]) :
    ssd [p] ps p.mu = 0 := by
  subst hps
  simp [ssd]

theorem runCluster_singleton (gexp gsqrt : ℚ → ℚ) (hE : ∀ x, 0 < gexp x)
    (hS : ∀ x, 0 < gsqrt x) (p : Projected) (hv : 0 < p.var) :
    runCluster gexp gsqrt 3 [p] = [(p.mu, [p])] := by
  have hem := emResult_singleton gexp gsqrt hE hS p (ne_of_gt hv)
  show runCluster gexp gsqrt (2 + 1) [p] = [(p.mu, [p])]
  simp only [runCluster, hem, List.map_cons, List.map_nil]
  rw [ssd_center_singleton _ p (softAssign_singleton gexp gsqrt hE hS p p.mu),
    medianLow_single]
  rw [if_neg (by simp only [not_lt]; positivity)]

theorem groupPool_singleton (gexp gsqrt : ℚ → ℚ) (hE : ∀ x, 0 < gexp x)
    (hS : ∀ x, 0 < gsqrt x) (bs : ℚ) (o : Obs)
    (states : List (String × SyncState)) (hv : 0 < (project states o).var) :
    groupPool gexp gsqrt bs [o] states =
      [⟨(project states o).mu, [⟨o.sensor_id, 1⟩]⟩] := by
  unfold groupPool
  simp only [List.map_cons, List.map_nil]
  have hsort : sortByMu [project states o] = [project states o] := rfl
  have hruns : splitRuns bs [project states o] = [[project states o]] := rfl
  rw [hsort, hruns]
  simp only [List.map_cons, List.map_nil, List.flatten_cons, List.flatten_nil,
    List.append_nil]
  rw [runCluster_singleton gexp gsqrt hE hS (project states o) hv]
  simp only [List.map_cons, List.map_nil]
  unfold mkGroup mkMembers
  rw [softAssign_singleton gexp gsqrt hE hS (project states o) (project states o).mu]
  simp [sortGroups, insertGroup, sortMembers, insertMember, project]

theorem step_singleton_eval (gexp gsqrt : ℚ → ℚ) (hE : ∀ x, 0 < gexp x)
    (hS : ∀ x, 0 < gsqrt x) :
    step gexp gsqrt true 1 [⟨"s", "camera", 10, 1/100, "mem://test"⟩] [] =
      [⟨10, [⟨"s", 1⟩]⟩] := by
  have hv : 0 < (project [] (⟨"s", "camera", 10, 1/100, "mem://test"⟩ : Obs)).var := by
    norm_num [project, lookupState, defaultSyncState, sigmaEff]
  have hmu : (project ([] : List (String × SyncState))
      (⟨"s", "camera", 10, 1/100, "mem://test"⟩ : Obs)).mu = 10 := by
    norm_num [project, lookupState, defaultSyncState]
  have h := groupPool_singleton gexp gsqrt hE hS 1
    ⟨"s", "camera", 10, 1/100, "mem://test"⟩ [] hv
  show groupPool gexp gsqrt 1 [⟨"s", "camera", 10, 1/100, "mem://test"⟩] [] = _
  rw [h, hmu]

/-- Claim C4: a pool holding exactly one observation with sensor_id s,
t_local 10, sigma 0.01 and default sync state yields exactly one group
whose t_global is within 0.1 of 10 and whose single member is (s, 1). -/
theorem step_singleton (gexp gsqrt : ℚ → ℚ) (hE : ∀ x, 0 < gexp x)
    (hS : ∀ x, 0 < gsqrt x) :
    ∃ g, step gexp gsqrt true 1 [⟨"s", "camera", 10, 1/100, "mem://test"⟩] [] = [g] ∧
      |g.t_global - 10| < 1/10 ∧ g.members = [⟨"s", 1⟩] :=
  ⟨⟨10, [⟨"s", 1⟩]⟩, step_singleton_eval gexp gsqrt hE hS, by norm_num, rfl⟩

theorem step_singleton_witness :
    ∃ g, step (fun _ => 1) (fun _ => 1) true 1
        [⟨"s", "camera", 10, 1/100, "mem://test"⟩] [] = [g] ∧
      |g.t_global - 10| < 1/10 ∧ g.members = [⟨"s", 1⟩] :=
  step_singleton (fun _ => 1) (fun _ => 1) (fun _ => by norm_num) (fun _ => by norm_num)

theorem step_probabilities_valid_witness :
    (∀ m ∈ Group.members ⟨10, [⟨"s", 1⟩]⟩, 0 < m.probability ∧ m.probability ≤ 1) ∧
      |sumProbs (Group.members ⟨10, [⟨"s", 1⟩]⟩) - 1| ≤ 1 / 1000000 :=
  step_probabilities_valid (fun _ => 1) (fun _ => 1) (fun _ => by norm_num)
    (fun _ => by norm_num) true 1 [⟨"s", "camera", 10, 1/100, "mem://test"⟩] []
    ⟨10, [⟨"s", 1⟩]⟩
    (by rw [step_singleton_eval (fun _ => 1) (fun _ => 1) (fun _ => by norm_num)
          (fun _ => by norm_num)]
        exact List.mem_singleton.mpr rfl)

theorem softAssign_pair (gexp gsqrt : ℚ → ℚ) (hE : ∀ x, 0 < gexp x)
    (hS : ∀ x, 0 < gsqrt x) (a b : Projected) (t : ℚ)
    (hvar : b.var = a.var) (hsq : (b.mu - t) ^ 2 = (a.mu - t) ^ 2) :
    softAssign gexp gsqrt [a, b] t = [1/2, 1/2] := by
  have hw : weight gexp gsqrt t b = weight gexp gsqrt t a := by
    unfold weight
    rw [hvar, hsq]
  have hwp : 0 < weight gexp gsqrt t a := weight_pos gexp gsqrt hE hS t a
  have htot : weight gexp gsqrt t a + weight gexp gsqrt t a ≠ 0 := by positivity
  have hdiv : weight gexp gsqrt t a / (weight gexp gsqrt t a + weight gexp gsqrt t a)
      = 1/2 := by
    rw [← two_mul, mul_comm, ← div_div, div_self (ne_of_gt hwp)]
  simp only [softAssign, List.map_cons, List.map_nil, List.sum_cons, List.sum_nil,
    add_zero, hw, if_neg htot, hdiv]

theorem emResult_pair (gexp gsqrt : ℚ → ℚ) (hE : ∀ x, 0 < gexp x)
    (hS : ∀ x, 0 < gsqrt x) :
    emResult gexp gsqrt [⟨"sensor-close", 10, 1001/10000⟩,
      ⟨"sensor-far", 21/2, 1001/10000⟩] = 41/4 := by
  have hinit : initCenter [(⟨"sensor-close", 10, 1001/10000⟩ : Projected),
      ⟨"sensor-far", 21/2, 1001/10000⟩] = 41/4 := by
    simp only [initCenter, List.map_cons, List.map_nil, List.sum_cons, List.sum_nil]
    norm_num
  have hassign := softAssign_pair gexp gsqrt hE hS
    ⟨"sensor-close", 10, 1001/10000⟩ ⟨"sensor-far", 21/2, 1001/10000⟩ (41/4)
    rfl (by norm_num)
  have hrefine : refineCenter [(⟨"sensor-close", 10, 1001/10000⟩ : Projected),
      ⟨"sensor-far", 21/2, 1001/10000⟩] [1/2, 1/2] = 41/4 := by
    simp only [refineCenter, List.zip_cons_cons, List.zip_nil_right, List.map_cons,
      List.map_nil, List.sum_cons, List.sum_nil]
    norm_num
  unfold emResult
  rw [hinit]
  exact emIterate_fixpoint gexp gsqrt _ 7 (41/4) (by rw [hassign]; exact hrefine)

theorem runCluster_pair (gexp gsqrt : ℚ → ℚ) (hE : ∀ x, 0 < gexp x)
    (hS : ∀ x, 0 < gsqrt x) :
    runCluster gexp gsqrt 3 [⟨"sensor-close", 10, 1001/10000⟩,
        ⟨"sensor-far", 21/2, 1001/10000⟩] =
      [(41/4, [⟨"sensor-close", 10, 1001/10000⟩, ⟨"sensor-far", 21/2, 1001/10000⟩])] := by
  have hem := emResult_pair gexp gsqrt hE hS
  have hassign := softAssign_pair gexp gsqrt hE hS
    ⟨"sensor-close", 10, 1001/10000⟩ ⟨"sensor-far", 21/2, 1001/10000⟩ (41/4)
    rfl (by norm_num)
  have hssd : ssd [(⟨"sensor-close", 10, 1001/10000⟩ : Projected),
      ⟨"sensor-far", 21/2, 1001/10000⟩] [1/2, 1/2] (41/4) = 1/16 := by
    simp only [ssd, List.zip_cons_cons, List.zip_nil_right, List.map_cons,
      List.map_nil, List.sum_cons, List.sum_nil]
    norm_num
  have hmed : medianLow ([(⟨"sensor-close", 10, 1001/10000⟩ : Projected),
      ⟨"sensor-far", 21/2, 1001/10000⟩].map (fun p => p.var)) = 1001/10000 := by
    simp [medianLow, sortQ, insertQ]
  show runCluster gexp gsqrt (2 + 1) _ = _
  simp only [runCluster, hem, hassign, hssd, hmed]
  rw [if_neg (by norm_num)]

theorem step_pair_eval (gexp gsqrt : ℚ → ℚ) (hE : ∀ x, 0 < gexp x)
    (hS : ∀ x, 0 < gsqrt x) :
    step gexp gsqrt true 1
        [⟨"sensor-close", "x", 10, 1/100, "mem://test"⟩,
         ⟨"sensor-far", "x", 21/2, 1/100, "mem://test"⟩] [] =
      [⟨41/4, [⟨"sensor-close", 1/2⟩, ⟨"sensor-far", 1/2⟩]⟩] := by
  have hpc : project [] (⟨"sensor-close", "x", 10, 1/100, "mem://test"⟩ : Obs) =
      ⟨"sensor-close", 10, 1001/10000⟩ := by
    simp only [project, lookupState, List.lookup, defaultSyncState, sigmaEff]
    norm_num
  have hpf : project [] (⟨"sensor-far", "x", 21/2, 1/100, "mem://test"⟩ : Obs) =
      ⟨"sensor-far", 21/2, 1001/10000⟩ := by
    simp only [project, lookupState, List.lookup, defaultSyncState, sigmaEff]
    norm_num
  show groupPool gexp gsqrt 1 _ [] = _
  unfold groupPool
  simp only [List.map_cons, List.map_nil, hpc, hpf]
  have hsort : sortByMu [(⟨"sensor-close", 10, 1001/10000⟩ : Projected),
      ⟨"sensor-far", 21/2, 1001/10000⟩] =
      [⟨"sensor-close", 10, 1001/10000⟩, ⟨"sensor-far", 21/2, 1001/10000⟩] := by
    simp only [sortByMu, insertByMu]
    rw [if_pos (by norm_num)]
  have hruns : splitRuns 1 [(⟨"sensor-close", 10, 1001/10000⟩ : Projected),
      ⟨"sensor-far", 21/2, 1001/10000⟩] =
      [[⟨"sensor-close", 10, 1001/10000⟩, ⟨"sensor-far", 21/2, 1001/10000⟩]] := by
    have hbc : bucketOf 1 (⟨"sensor-close", 10, 1001/10000⟩ : Projected) = 10 := by
      simp only [bucketOf]
      norm_num
    have hbf : bucketOf 1 (⟨"sensor-far", 21/2, 1001/10000⟩ : Projected) = 10 := by
      simp only [bucketOf]
      norm_num
    simp only [splitRuns, hbc, hbf]
    rw [if_pos (by norm_num)]
  rw [hsort, hruns]
  simp only [List.map_cons, List.map_nil, List.flatten_cons, List.flatten_nil,
    List.append_nil]
  rw [runCluster_pair gexp gsqrt hE hS]
  simp only [List.map_cons, List.map_nil]
  unfold mkGroup mkMembers
  rw [softAssign_pair gexp gsqrt hE hS ⟨"sensor-close", 10, 1001/10000⟩
    ⟨"sensor-far", 21/2, 1001/10000⟩ (41/4) rfl (by norm_num)]
  have hle : ("sensor-close" : String) ≤ "sensor-far" :=
    le_of_lt (by rw [String.lt_iff_toList_lt]; decide)
  have hmb : memberBefore ⟨"sensor-close", 1/2⟩ ⟨"sensor-far", 1/2⟩ = true := by
    have h1 : decide ((1 : ℚ)/2 < 1/2) = false := decide_eq_false (by norm_num)
    have h2 : decide ((1 : ℚ)/2 = 1/2) = true := decide_eq_true rfl
    have h3 : decide (("sensor-close" : String) ≤ "sensor-far") = true :=
      decide_eq_true hle
    unfold memberBefore
    rw [h1, h2, h3]
    rfl
  simp only [List.zip_cons_cons, List.zip_nil_right, List.map_cons, List.map_nil,
    sortGroups, sortMembers, insertMember]
  rw [hmb]
  simp [sortGroups, insertGroup]

/-- Claim C5: for the pool of exactly two observations at t_local 10 and
10.5, both with sigma 0.01 and bucket size 1000 ms, step returns one group
containing both as members, and whenever the estimated t_global of that group is below
10.25 the member at 10 has strictly greater probability than the member at
10.5 (here t_global equals 10.25 exactly and both probabilities are 1/2). -/
theorem step_close_far (gexp gsqrt : ℚ → ℚ) (hE : ∀ x, 0 < gexp x)
    (hS : ∀ x, 0 < gsqrt x) :
    ∃ g, step gexp gsqrt true 1
        [⟨"sensor-close", "x", 10, 1/100, "mem://test"⟩,
         ⟨"sensor-far", "x", 21/2, 1/100, "mem://test"⟩] [] = [g] ∧
      (∃ m ∈ g.members, m.sensor_id = "sensor-close") ∧
      (∃ m ∈ g.members, m.sensor_id = "sensor-far") ∧
      (g.t_global < 41/4 →
        memberProbability [g] "sensor-close" > memberProbability [g] "sensor-far") := by
  refine ⟨⟨41/4, [⟨"sensor-close", 1/2⟩, ⟨"sensor-far", 1/2⟩]⟩,
    step_pair_eval gexp gsqrt hE hS, ⟨⟨"sensor-close", 1/2⟩, by simp, rfl⟩,
    ⟨⟨"sensor-far", 1/2⟩, by simp, rfl⟩, fun hlt => absurd hlt (by norm_num)⟩

theorem step_close_far_witness :
    ∃ g, step (fun _ => 1) (fun _ => 1) true 1
        [⟨"sensor-close", "x", 10, 1/100, "mem://test"⟩,
         ⟨"sensor-far", "x", 21/2, 1/100, "mem://test"⟩] [] = [g] ∧
      (∃ m ∈ g.members, m.sensor_id = "sensor-close") ∧
      (∃ m ∈ g.members, m.sensor_id = "sensor-far") ∧
      (g.t_global < 41/4 →
        memberProbability [g] "sensor-close" > memberProbability [g] "sensor-far") :=
  step_close_far (fun _ => 1) (fun _ => 1) (fun _ => by norm_num) (fun _ => by norm_num)

theorem successfulNodes_some : ∀ (m : String) (ns : List String) (x : String),
    x ∈ successfulNodes (some m) ns → x = m
  | _, [], _ => by simp [successfulNodes]
  | m, n :: ns, x => by
    intro hx
    by_cases hmn : m = n
    · subst hmn
      simp only [successfulNodes, electAttempt, if_pos rfl] at hx
      rcases List.mem_append.mp hx with h | h
      · simpa using h
      · exact successfulNodes_some m ns x h
    · simp only [successfulNodes, electAttempt, if_neg hmn] at hx
      rcases List.mem_append.mp hx with h | h
      · simp at h
      · exact successfulNodes_some m ns x h

theorem successfulNodes_pairwise : ∀ (master : Option String) (ns : List String)
    (x y : String), x ∈ successfulNodes master ns → y ∈ successfulNodes master ns →
    x = y
  | none, [], x, y => by simp [successfulNodes]
  | none, n :: ns, x, y => by
    intro hx hy
    simp only [successfulNodes, electAttempt] at hx hy
    have hx2 : x = n := by
      rcases List.mem_append.mp hx with h | h
      · simpa using h
      · exact successfulNodes_some n ns x h
    have hy2 : y = n := by
      rcases List.mem_append.mp hy with h | h
      · simpa using h
      · exact successfulNodes_some n ns y h
    rw [hx2, hy2]
  | some m, ns, x, y => fun hx hy =>
    (successfulNodes_some m ns x hx).trans (successfulNodes_some m ns y hy).symm

theorem nonEmptyNodes_sub (gexp gsqrt : ℚ → ℚ) (bs : ℚ) (pool : List Obs)
    (states : List (String × SyncState)) : ∀ (master : Option String)
    (ns : List String) (x : String),
    x ∈ nonEmptyNodes gexp gsqrt bs pool states master ns →
      x ∈ successfulNodes master ns
  | _, [], _ => by simp [nonEmptyNodes, successfulNodes]
  | master, n :: ns, x => by
    intro hx
    simp only [nonEmptyNodes] at hx
    simp only [successfulNodes]
    rcases List.mem_append.mp hx with h | h
    · cases hr : (electAttempt master n).1 with
      | false =>
        rw [hr] at h
        simp [step] at h
      | true =>
        have hxn : x = n := by
          split at h
          · simp at h
          · simpa using h
        subst hxn
        exact List.mem_append.mpr (Or.inl (by simp))
    · exact List.mem_append.mpr (Or.inr
        (nonEmptyNodes_sub gexp gsqrt bs pool states (electAttempt master n).2 ns x h))

/-- Claim C8: along a linearized trace of election checks against the
shared lease key with no expiry in between, any two nodes whose election
check succeeds are the same node, and hence any two nodes whose step
returns a non-empty result are the same node. -/
theorem election_at_most_one (gexp gsqrt : ℚ → ℚ) (bs : ℚ) (pool : List Obs)
    (states : List (String × SyncState)) (master : Option String)
    (trace : List String) (a b c d : String)
    (ha : a ∈ successfulNodes master trace)
    (hb : b ∈ successfulNodes master trace)
    (hc : c ∈ nonEmptyNodes gexp gsqrt bs pool states master trace)
    (hd : d ∈ nonEmptyNodes gexp gsqrt bs pool states master trace) :
    a = b ∧ c = d :=
  ⟨successfulNodes_pairwise master trace a b ha hb,
   successfulNodes_pairwise master trace c d
     (nonEmptyNodes_sub gexp gsqrt bs pool states master trace c hc)
     (nonEmptyNodes_sub gexp gsqrt bs pool states master trace d hd)⟩

theorem election_at_most_one_witness : ("a" : String) = "a" ∧ ("a" : String) = "a" :=
  election_at_most_one (fun _ => 1) (fun _ => 1) 1
    [⟨"s", "camera", 10, 1/100, "mem://test"⟩] [] none ["a", "b"] "a" "a" "a" "a"
    (by simp [successfulNodes, electAttempt])
    (by simp [successfulNodes, electAttempt])
    (by simp only [nonEmptyNodes, electAttempt,
          step_singleton_eval (fun _ => 1) (fun _ => 1) (fun _ => by norm_num)
            (fun _ => by norm_num)]
        simp [step])
    (by simp only [nonEmptyNodes, electAttempt,
          step_singleton_eval (fun _ => 1) (fun _ => 1) (fun _ => by norm_num)
            (fun _ => by norm_num)]
        simp [step])

end Sensorium
